import Mathlib

/-!
# Verification of the teal-wrapped aggregation and caching pipeline

Shallow embedding of the repository's core: the `user_plays` Play Store
schema, the materialized views `user_artist_stats`, `user_track_stats` and
`user_daily_activity` (both the initial version and the version of migration
`20250101000003_materialized_views.sql`), the `refresh_retry_queue` table,
the `wrapped_cache` / `global_stats_cache` tables, and the lexicon
validation constraints of `fm.teal.alpha.feed.play`.

SQL semantics is embedded deterministically: a table is a list of rows in
insertion order; `GROUP BY` groups rows by key in first-seen order; an
`ORDER BY` inside an aggregate (`jsonb_agg(... ORDER BY c DESC)`) is a
stable sort of the group's first-seen order.  Timestamps are seconds since
the Unix epoch, evaluated in UTC (the containers run with a UTC session
time zone, so `EXTRACT(YEAR ...)`, `DATE_PART('year', ...)` and casts to
`DATE` are calendar operations on UTC time).
-/

namespace TealWrapped

/-- An artist object inside the `artists` JSONB array of `user_plays`
(lexicon `fm.teal.alpha.feed.defs#artist`): `artistName` plus optional
`artistMbId`. -/
structure Artist where
  artistName : String
  artistMbId : Option String
deriving DecidableEq

/-- One row of the `user_plays` table.  `NOT NULL` columns are plain
fields; nullable ones are `Option`.  `played_at TIMESTAMPTZ NOT NULL` is
seconds since the Unix epoch (UTC). -/
structure PlayRow where
  user_did : String
  uri : String
  track_name : String
  artists : List Artist
  recording_mb_id : Option String
  release_mb_id : Option String
  release_name : Option String
  duration_ms : Option Nat
  played_at : Nat
deriving DecidableEq

/-- `played_at::DATE` in UTC: days since the Unix epoch. -/
def dayOf (p : PlayRow) : Nat := p.played_at / 86400

/-- Gregorian leap-year test. -/
def isLeap (y : Nat) : Bool := (y % 4 == 0 && y % 100 != 0) || y % 400 == 0

/-- Number of days in year `y`. -/
def daysInYear (y : Nat) : Nat := if isLeap y then 366 else 365

/-- Fuel-driven year extraction: walk forward from 1970 consuming whole
years of days. -/
def yearOfAux : Nat → Nat → Nat → Nat
  | 0, y, _ => y
  | fuel + 1, y, d => if d < daysInYear y then y else yearOfAux fuel (y + 1) (d - daysInYear y)

/-- `DATE_PART('year', ...)` / `EXTRACT(YEAR FROM ...)` on a UTC day
number: the calendar year containing epoch day `d`.  Each step of
`yearOfAux` consumes at least 365 days, so `d / 365 + 1` steps always
reach the containing year. -/
def yearOfDay (d : Nat) : Nat := yearOfAux (d / 365 + 1) 1970 d

/-- The UTC calendar year of a play's `played_at`. -/
def yearOf (p : PlayRow) : Nat := yearOfDay (dayOf p)

/-! ## Grouping machinery: SQL `GROUP BY` over a list of rows

`repsSeen k l seen` returns one representative row per key, in first-seen
order, skipping keys in `seen`; `groupsBy k l` pairs each representative
with all rows of `l` sharing its key. -/

/-- First representative of each key of `l` (in first-seen order), keys in
`seen` excluded. -/
def repsSeen {α κ : Type} [DecidableEq κ] (k : α → κ) : List α → List κ → List α
  | [], _ => []
  | x :: xs, seen =>
    if k x ∈ seen then repsSeen k xs seen else x :: repsSeen k xs (k x :: seen)

/-- SQL `GROUP BY k`: one group per distinct key, in first-seen order; a
group is its first-seen representative together with every row of `l`
having the same key. -/
def groupsBy {α κ : Type} [DecidableEq κ] (k : α → κ) (l : List α) : List (α × List α) :=
  (repsSeen k l []).map fun x => (x, l.filter fun y => decide (k y = k x))

/-- Stable insertion (descending by `key`): `x` is placed before the first
element whose key is not greater, so equal keys keep their input order. -/
def insertDesc {α : Type} (key : α → Nat) (x : α) : List α → List α
  | [] => [x]
  | y :: ys => if key x < key y then y :: insertDesc key x ys else x :: y :: ys

/-- Stable sort, descending by `key` (embeds
`jsonb_agg(... ORDER BY c DESC)` read as a stable sort of the group's
first-seen order). -/
def sortDesc {α : Type} (key : α → Nat) : List α → List α
  | [] => []
  | x :: xs => insertDesc key x (sortDesc key xs)

/-- Stable insertion (ascending by `key`). -/
def insertAsc {α : Type} (key : α → Nat) (x : α) : List α → List α
  | [] => [x]
  | y :: ys => if key y < key x then y :: insertAsc key x ys else x :: y :: ys

/-- Stable sort, ascending by `key` (embeds
`jsonb_object_agg(... ORDER BY date_str)`). -/
def sortAsc {α : Type} (key : α → Nat) : List α → List α
  | [] => []
  | x :: xs => insertAsc key x (sortAsc key xs)

/-- `COALESCE(duration_ms, 210000)`: the fallback track length used in
every duration sum of the views. -/
def coalesceDur (d : Option Nat) : Nat := d.getD 210000

/-! ## The `user_artist_stats` materialized view

`FROM user_plays, jsonb_array_elements(artists) as artist` is the lateral
cross join: one row per (play, artist-array element). -/

/-- One row of `user_plays, jsonb_array_elements(artists)`. -/
def aRows (plays : List PlayRow) : List (PlayRow × Artist) :=
  plays.flatMap fun p => p.artists.map fun a => (p, a)

/-- Inner `GROUP BY` key of `user_artist_stats`: user, time component
(year for the migration version, raw timestamp for the initial version),
artist name and MusicBrainz id. -/
structure AKey where
  user : String
  time : Nat
  name : String
  mbid : Option String
deriving DecidableEq

/-- Inner `GROUP BY` key of the migration version of `user_artist_stats`:
`(user_did, CAST(DATE_PART('year', played_at) AS INTEGER),
artist->>'artistName', artist->>'artistMbId')`. -/
def aKeyM (r : PlayRow × Artist) : AKey :=
  ⟨r.1.user_did, yearOf r.1, r.2.artistName, r.2.artistMbId⟩

/-- Inner `GROUP BY` key of the initial version of `user_artist_stats`:
`(user_did, played_at, artist_name, artist_mb_id)` — note the raw
timestamp in place of the year. -/
def aKeyP (r : PlayRow × Artist) : AKey :=
  ⟨r.1.user_did, r.1.played_at, r.2.artistName, r.2.artistMbId⟩

/-- One element of the `artists` JSONB array of `user_artist_stats`. -/
structure ArtistStat where
  name : String
  mb_id : Option String
  play_count : Nat
  total_duration_ms : Nat
deriving DecidableEq

/-- The `jsonb_build_object` of `user_artist_stats` for one inner group:
`play_count = COUNT(*)`, `total_duration_ms = SUM(COALESCE(duration_ms,
210000))`. -/
def mkAStat (rep : PlayRow × Artist) (rows : List (PlayRow × Artist)) : ArtistStat :=
  { name := rep.2.artistName
    mb_id := rep.2.artistMbId
    play_count := rows.length
    total_duration_ms := (rows.map fun r => coalesceDur r.1.duration_ms).sum }

/-- The migration `user_artist_stats` before the aggregate's `ORDER BY`:
one row per `(user_did, year)`, the `artists` array in first-seen order of
the `(artist_name, artist_mb_id)` group. -/
def artistGroupsRaw (plays : List PlayRow) : List ((String × Nat) × List ArtistStat) :=
  (groupsBy (fun e => (e.1.1.user_did, yearOf e.1.1)) (groupsBy aKeyM (aRows plays))).map
    fun og => ((og.1.1.1.user_did, yearOf og.1.1.1), og.2.map fun e => mkAStat e.1 e.2)

/-- The migration version of `user_artist_stats`: per `(user_did, year)`
the `artists` array ordered by `play_count DESC` (stable). -/
def user_artist_stats (plays : List PlayRow) : List ((String × Nat) × List ArtistStat) :=
  (artistGroupsRaw plays).map fun g => (g.1, sortDesc (fun s => s.play_count) g.2)

/-- The initial version of `user_artist_stats` (file
`part_004`): the inner query groups by `(user_did, played_at, artist_name,
artist_mb_id)` — the raw timestamp — and the outer query groups by
`(user_did, EXTRACT(YEAR FROM played_at))`. -/
def user_artist_stats_v1 (plays : List PlayRow) : List ((String × Nat) × List ArtistStat) :=
  (groupsBy (fun e => (e.1.1.user_did, yearOf e.1.1)) (groupsBy aKeyP (aRows plays))).map
    fun og => ((og.1.1.1.user_did, yearOf og.1.1.1),
      sortDesc (fun s => s.play_count) (og.2.map fun e => mkAStat e.1 e.2))

/-! ## The `user_track_stats` materialized view -/

/-- `(artists->0)->>'artistName'`: name of the first artist, if any. -/
def firstArtist (p : PlayRow) : Option String := p.artists.head?.map fun a => a.artistName

/-- Inner `GROUP BY` key of the migration `user_track_stats`. -/
structure TKey where
  user : String
  yr : Nat
  track : String
  first : Option String
  recording : Option String
  release : Option String
  releaseName : Option String
deriving DecidableEq

/-- Inner `GROUP BY` key of the migration `user_track_stats`:
`(user_did, year, track_name, first_artist, recording_mb_id,
release_mb_id, release_name)`. -/
def tKey (p : PlayRow) : TKey :=
  ⟨p.user_did, yearOf p, p.track_name, firstArtist p,
    p.recording_mb_id, p.release_mb_id, p.release_name⟩

/-- One element of the `tracks` JSONB array of `user_track_stats`. -/
structure TrackStat where
  track_name : String
  artist_name : Option String
  recording_mb_id : Option String
  release_mb_id : Option String
  release_name : Option String
  play_count : Nat
deriving DecidableEq

/-- The `jsonb_build_object` of `user_track_stats` for one inner group. -/
def mkTStat (rep : PlayRow) (rows : List PlayRow) : TrackStat :=
  { track_name := rep.track_name
    artist_name := firstArtist rep
    recording_mb_id := rep.recording_mb_id
    release_mb_id := rep.release_mb_id
    release_name := rep.release_name
    play_count := rows.length }

/-- Plays passing the view's `WHERE jsonb_array_length(artists) > 0`. -/
def tracksSource (plays : List PlayRow) : List PlayRow :=
  plays.filter fun p => decide (0 < p.artists.length)

/-- `user_track_stats` before the aggregate's `ORDER BY`: one row per
`(user_did, year)`, the `tracks` array in first-seen order of the track
group. -/
def trackGroupsRaw (plays : List PlayRow) : List ((String × Nat) × List TrackStat) :=
  (groupsBy (fun e => (e.1.user_did, yearOf e.1)) (groupsBy tKey (tracksSource plays))).map
    fun og => ((og.1.1.user_did, yearOf og.1.1), og.2.map fun e => mkTStat e.1 e.2)

/-- The migration version of `user_track_stats`: per `(user_did, year)`
the `tracks` array ordered by `play_count DESC` (stable). -/
def user_track_stats (plays : List PlayRow) : List ((String × Nat) × List TrackStat) :=
  (trackGroupsRaw plays).map fun g => (g.1, sortDesc (fun s => s.play_count) g.2)

/-! ## The `user_daily_activity` materialized view -/

/-- Inner `GROUP BY` key: `(user_did, played_at::DATE)`. -/
def dKey (p : PlayRow) : String × Nat := (p.user_did, dayOf p)

/-- One entry of the `daily_stats` JSONB object: day, `plays = COUNT(*)`,
`duration_ms = SUM(COALESCE(duration_ms, 210000))`. -/
structure DayStat where
  day : Nat
  plays : Nat
  duration_ms : Nat
deriving DecidableEq

/-- The per-day statistics for one inner group. -/
def mkDStat (rep : PlayRow) (rows : List PlayRow) : DayStat :=
  { day := dayOf rep
    plays := rows.length
    duration_ms := (rows.map fun r => coalesceDur r.duration_ms).sum }

/-- The migration `user_daily_activity`: per `(user_did, year)` the map of
daily statistics, ordered by date ascending (`ORDER BY date_str`). -/
def user_daily_activity (plays : List PlayRow) : List ((String × Nat) × List DayStat) :=
  (groupsBy (fun e => (e.1.user_did, yearOfDay (dayOf e.1))) (groupsBy dKey plays)).map
    fun og => ((og.1.1.user_did, yearOfDay (dayOf og.1.1)),
      sortAsc (fun d => d.day) (og.2.map fun e => mkDStat e.1 e.2))

/-! ## Play Store ingestion (record / validation) -/

/-- Outcome of `record`. -/
inductive RecordResult where
  | Inserted
  | Duplicate
deriving DecidableEq

/-- Modelled from the spec: the Play Store `record(event) -> {Inserted,
Duplicate}` operation of the API server (its Rust source `api/src` is not
in the repository snapshot); recording a `uri` already present returns
`Duplicate` and performs no mutation, otherwise the row is appended.  The
dedup key is the `UNIQUE` constraint on `user_plays.uri`. -/
def record (store : List PlayRow) (p : PlayRow) : RecordResult × List PlayRow :=
  if store.any fun r => r.uri == p.uri then (RecordResult.Duplicate, store)
  else (RecordResult.Inserted, store ++ [p])

/-- An ingestion event at the boundary, before validation: `played_at`
may be absent (the lexicon's `playedTime` is optional), and the track
name is unchecked. -/
structure IngestEvent where
  user_did : String
  uri : String
  track_name : String
  artists : List Artist
  recording_mb_id : Option String
  release_mb_id : Option String
  release_name : Option String
  duration_ms : Option Nat
  played_at : Option Nat
deriving DecidableEq

/-- Boundary validation: the lexicon `fm.teal.alpha.feed.play` constrains
`trackName` to length 1..256, and `user_plays.played_at` is `NOT NULL`,
so an event with an empty track name or an absent `played_at` yields no
row. -/
def toRow (e : IngestEvent) : Option PlayRow :=
  match e.played_at with
  | none => none
  | some t =>
    if e.track_name.length = 0 ∨ 256 < e.track_name.length then none
    else some ⟨e.user_did, e.uri, e.track_name, e.artists, e.recording_mb_id,
      e.release_mb_id, e.release_name, e.duration_ms, t⟩

/-- Modelled from the spec: the ingestion boundary of the API server (its
Rust source `api/src` is not in the repository snapshot) — a malformed
event (missing required field) is rejected and never stored; a valid one
is recorded with `uri` dedup. -/
def ingest (store : List PlayRow) (e : IngestEvent) :
    Except String (RecordResult × List PlayRow) :=
  match toRow e with
  | none => Except.error "malformed event"
  | some r => Except.ok (record store r)

/-- `uri` is unique across the store (`user_plays.uri TEXT NOT NULL
UNIQUE`). -/
def uniqueUris (store : List PlayRow) : Prop :=
  store.Pairwise fun r s => r.uri ≠ s.uri

/-! ## Refresh retry queue (`refresh_retry_queue`) -/

/-- One row of `refresh_retry_queue`: `user_did TEXT NOT NULL UNIQUE`,
`retry_count INTEGER DEFAULT 0`, `last_attempt TIMESTAMPTZ DEFAULT
NOW()`, `created_at TIMESTAMPTZ DEFAULT NOW()`.  There is no year column
and no outcome column. -/
structure RetryRow where
  user_did : String
  retry_count : Nat
  last_attempt : Nat
  created_at : Nat
deriving DecidableEq

/-- Modelled from the spec: the failure path of the refresh scheduler
(the API server's Rust source `api/src` is not in the repository
snapshot) — on a failed refresh for a user, upsert that user's
`refresh_retry_queue` row: insert it with the DDL defaults
(`retry_count = 0`) on first failure, else bump `retry_count` and
`last_attempt`. -/
def markFailed (q : List RetryRow) (did : String) (now : Nat) : List RetryRow :=
  if q.any fun r => r.user_did == did then
    q.map fun r =>
      if r.user_did == did then { r with retry_count := r.retry_count + 1, last_attempt := now }
      else r
  else q ++ [⟨did, 0, now, now⟩]

/-- Modelled from the spec: on a successful refresh the user's retry row
is deleted. -/
def markSuccess (q : List RetryRow) (did : String) : List RetryRow :=
  q.filter fun r => r.user_did ≠ did

/-- At most one retry row per `user_did` (the DDL `UNIQUE` constraint). -/
def uniqueDids (q : List RetryRow) : Prop :=
  q.Pairwise fun r s => r.user_did ≠ s.user_did

/-! ## Result cache (`wrapped_cache`, `global_stats_cache`) -/

/-- An `AggregateKey`: `(user_did, year)` for a `wrapped_cache` row,
`(year)` alone for a `global_stats_cache` row. -/
inductive AggregateKey where
  | personal (user_did : String) (year : Nat)
  | globalKey (year : Nat)
deriving DecidableEq

/-- A cache entry: key, aggregate data, `created_at`. -/
structure CacheEntry (δ : Type) where
  key : AggregateKey
  data : δ
  created_at : Nat

/-- Modelled from the spec: `put(key, aggregate)` — idempotent overwrite
of the key's row (`INSERT ... ON CONFLICT (key) DO UPDATE` against the
tables' primary keys; the API server's Rust source `api/src` is not in
the repository snapshot). -/
def cachePut {δ : Type} (c : List (CacheEntry δ)) (k : AggregateKey) (v : δ) (t : Nat) :
    List (CacheEntry δ) :=
  (c.filter fun e => e.key ≠ k) ++ [⟨k, v, t⟩]

/-- Modelled from the spec: `get(key) -> Option<YearlyAggregate>`. -/
def cacheGet {δ : Type} (c : List (CacheEntry δ)) (k : AggregateKey) : Option δ :=
  (c.find? fun e => e.key == k).map fun e => e.data

/-- Modelled from the spec: `invalidate(key)` deletes the key's row. -/
def cacheInvalidate {δ : Type} (c : List (CacheEntry δ)) (k : AggregateKey) :
    List (CacheEntry δ) :=
  c.filter fun e => e.key ≠ k

/-- At most one cache entry per key (the tables' `PRIMARY KEY`s). -/
def uniqueKeys {δ : Type} (c : List (CacheEntry δ)) : Prop :=
  c.Pairwise fun e f => e.key ≠ f.key

/-! ## Derived metrics (percentiles, streaks, diversity) -/

/-- 0-based nearest-rank index for percentile `p` in a list of `n` sorted
values: `⌈p·n/100⌉` as a 1-based rank, clamped into range. -/
def nearestRankIdx (n p : Nat) : Nat :=
  min (if p = 0 then 0 else (p * n + 99) / 100 - 1) (n - 1)

/-- Modelled from the spec: the global distribution percentiles (the API
server's Rust source `api/src` is not in the repository snapshot) —
nearest-rank method over the per-user statistic values sorted ascending,
no interpolation. -/
def percentile (values : List Nat) (p : Nat) : Nat :=
  (sortAsc id values).getD (nearestRankIdx values.length p) 0

/-- Modelled from the spec: the `[p, v]` percentile grid
(`P0/P25/P50/P75/P100`) served in `distribution` of the global wrapped
payload. -/
def distributionGrid (values : List Nat) : List (Nat × Nat) :=
  [0, 25, 50, 75, 100].map fun p => (p, percentile values p)

/-- Longest run of consecutive values in an ascending list of distinct
day numbers. -/
def streakGo : List Nat → Nat → Nat → Nat → Nat
  | [], _, _, best => best
  | d :: ds, prev, cur, best =>
    if d = prev + 1 then streakGo ds d (cur + 1) (max best (cur + 1))
    else streakGo ds d 1 best

/-- Modelled from the spec: `longest_streak` — the longest run of
consecutive UTC calendar days with at least one play (the API server's
Rust source `api/src` is not in the repository snapshot). -/
def longestStreak (days : List Nat) : Nat :=
  match days with
  | [] => 0
  | d :: ds => streakGo ds d 1 1

/-- The ascending day list of a user's year in `user_daily_activity`. -/
def activeDays (plays : List PlayRow) (u : String) (y : Nat) : List Nat :=
  match (user_daily_activity plays).find? fun g => g.1 == (u, y) with
  | none => []
  | some g => g.2.map fun d => d.day

/-- Modelled from the spec: `days_active` — the number of distinct active
days, the size of the year's daily activity map. -/
def days_active (plays : List PlayRow) (u : String) (y : Nat) : Nat :=
  (activeDays plays u y).length

/-- Modelled from the spec: `longest_streak` of a user's year. -/
def longest_streak (plays : List PlayRow) (u : String) (y : Nat) : Nat :=
  longestStreak (activeDays plays u y)

/-- The user's plays belonging to the year. -/
def playsOf (plays : List PlayRow) (u : String) (y : Nat) : List PlayRow :=
  plays.filter fun p => p.user_did == u && yearOf p == y

/-- Modelled from the spec: `listening_diversity` — unique-track-count ÷
total-play-count (distinct `track_name`s over plays of the key). -/
def listening_diversity (plays : List PlayRow) (u : String) (y : Nat) : ℚ :=
  ((repsSeen (fun p => p.track_name) (playsOf plays u y) []).length : ℚ) /
    ((playsOf plays u y).length : ℚ)

/-! ## Lemmas about the grouping machinery -/

theorem repsSeen_subset {α κ : Type} [DecidableEq κ] (k : α → κ) :
    ∀ (l : List α) (seen : List κ) (x : α), x ∈ repsSeen k l seen → x ∈ l := by
  intro l
  induction l with
  | nil => intro seen x h; simp [repsSeen] at h
  | cons a t ih =>
    intro seen x h
    by_cases hm : k a ∈ seen
    · rw [repsSeen, if_pos hm] at h
      exact List.mem_cons_of_mem _ (ih _ _ h)
    · rw [repsSeen, if_neg hm] at h
      rcases List.mem_cons.mp h with h | h
      · subst h; exact List.mem_cons_self _ _
      · exact List.mem_cons_of_mem _ (ih _ _ h)

theorem repsSeen_not_seen {α κ : Type} [DecidableEq κ] (k : α → κ) :
    ∀ (l : List α) (seen : List κ) (x : α), x ∈ repsSeen k l seen → k x ∉ seen := by
  intro l
  induction l with
  | nil => intro seen x h; simp [repsSeen] at h
  | cons a t ih =>
    intro seen x h
    by_cases hm : k a ∈ seen
    · rw [repsSeen, if_pos hm] at h
      exact ih _ _ h
    · rw [repsSeen, if_neg hm] at h
      rcases List.mem_cons.mp h with h | h
      · subst h; exact hm
      · have := ih _ _ h
        intro hc
        exact this (List.mem_cons_of_mem _ hc)

theorem repsSeen_pairwise {α κ : Type} [DecidableEq κ] (k : α → κ) :
    ∀ (l : List α) (seen : List κ),
      (repsSeen k l seen).Pairwise fun a b => k a ≠ k b := by
  intro l
  induction l with
  | nil => intro seen; simp [repsSeen]
  | cons a t ih =>
    intro seen
    by_cases hm : k a ∈ seen
    · rw [repsSeen, if_pos hm]; exact ih seen
    · rw [repsSeen, if_neg hm]
      refine List.Pairwise.cons ?_ (ih _)
      intro b hb
      have := repsSeen_not_seen k t (k a :: seen) b hb
      intro hc
      exact this (by rw [← hc]; exact List.mem_cons_self _ _)

theorem repsSeen_covers {α κ : Type} [DecidableEq κ] (k : α → κ) :
    ∀ (l : List α) (seen : List κ) (r : α), r ∈ l → k r ∉ seen →
      ∃ x ∈ repsSeen k l seen, k x = k r := by
  intro l
  induction l with
  | nil => intro seen r h; simp at h
  | cons a t ih =>
    intro seen r hr hs
    by_cases hm : k a ∈ seen
    · rw [repsSeen, if_pos hm]
      rcases List.mem_cons.mp hr with hr | hr
      · exact absurd hm (by rw [hr] at hs; exact hs)
      · exact ih seen r hr hs
    · rw [repsSeen, if_neg hm]
      by_cases hk : k r = k a
      · exact ⟨a, List.mem_cons_self _ _, hk.symm⟩
      · rcases List.mem_cons.mp hr with hr | hr
        · exact absurd rfl (by rw [hr] at hk; exact hk)
        · obtain ⟨x, hx, hxk⟩ := ih (k a :: seen) r hr (by
            intro hc
            rcases List.mem_cons.mp hc with hc | hc
            · exact hk hc
            · exact hs hc)
          exact ⟨x, List.mem_cons_of_mem _ hx, hxk⟩

theorem repsSeen_congr {α κ₁ κ₂ : Type} [DecidableEq κ₁] [DecidableEq κ₂]
    (k₁ : α → κ₁) (k₂ : α → κ₂) :
    ∀ (l : List α) (seen₁ : List κ₁) (seen₂ : List κ₂),
      (∀ r ∈ l, ∀ s ∈ l, k₁ r = k₁ s ↔ k₂ r = k₂ s) →
      (∀ r ∈ l, (k₁ r ∈ seen₁ ↔ k₂ r ∈ seen₂)) →
      repsSeen k₁ l seen₁ = repsSeen k₂ l seen₂ := by
  intro l
  induction l with
  | nil => intro seen₁ seen₂ _ _; simp [repsSeen]
  | cons a t ih =>
    intro seen₁ seen₂ hk hs
    have ha := hs a (List.mem_cons_self _ _)
    by_cases hm : k₁ a ∈ seen₁
    · rw [repsSeen, if_pos hm, repsSeen, if_pos (ha.mp hm)]
      exact ih seen₁ seen₂
        (fun r hr s hsm => hk r (List.mem_cons_of_mem _ hr) s (List.mem_cons_of_mem _ hsm))
        (fun r hr => hs r (List.mem_cons_of_mem _ hr))
    · rw [repsSeen, if_neg hm, repsSeen, if_neg (fun hc => hm (ha.mpr hc))]
      congr 1
      refine ih _ _
        (fun r hr s hsm => hk r (List.mem_cons_of_mem _ hr) s (List.mem_cons_of_mem _ hsm))
        (fun r hr => ?_)
      have hra := hk r (List.mem_cons_of_mem _ hr) a (List.mem_cons_self _ _)
      have hrs := hs r (List.mem_cons_of_mem _ hr)
      simp only [List.mem_cons]
      constructor
      · intro hc
        rcases hc with hc | hc
        · exact Or.inl (hra.mp hc)
        · exact Or.inr (hrs.mp hc)
      · intro hc
        rcases hc with hc | hc
        · exact Or.inl (hra.mpr hc)
        · exact Or.inr (hrs.mpr hc)

theorem mem_groupsBy {α κ : Type} [DecidableEq κ] (k : α → κ) (l : List α)
    (g : α × List α) (h : g ∈ groupsBy k l) :
    g.1 ∈ l ∧ g.2 = l.filter fun y => decide (k y = k g.1) := by
  obtain ⟨x, hx, hg⟩ := List.mem_map.mp h
  subst hg
  exact ⟨repsSeen_subset k l [] x hx, rfl⟩

theorem mem_of_mem_group {α κ : Type} [DecidableEq κ] (k : α → κ) (l : List α)
    (g : α × List α) (h : g ∈ groupsBy k l) (r : α) (hr : r ∈ g.2) :
    r ∈ l ∧ k r = k g.1 := by
  obtain ⟨-, h2⟩ := mem_groupsBy k l g h
  rw [h2] at hr
  have := List.mem_filter.mp hr
  exact ⟨this.1, of_decide_eq_true this.2⟩

theorem groupsBy_covers {α κ : Type} [DecidableEq κ] (k : α → κ) (l : List α)
    (r : α) (hr : r ∈ l) : ∃ g ∈ groupsBy k l, r ∈ g.2 := by
  obtain ⟨x, hx, hxk⟩ := repsSeen_covers k l [] r hr (by simp)
  refine ⟨(x, l.filter fun y => decide (k y = k x)), List.mem_map.mpr ⟨x, hx, rfl⟩, ?_⟩
  exact List.mem_filter.mpr ⟨hr, decide_eq_true hxk.symm⟩

theorem groupsBy_keys_pairwise {α κ : Type} [DecidableEq κ] (k : α → κ) (l : List α) :
    (groupsBy k l).Pairwise fun g h => k g.1 ≠ k h.1 := by
  unfold groupsBy
  exact (repsSeen_pairwise k l []).map _ (fun a b hab => hab)

theorem groupsBy_congr {α κ₁ κ₂ : Type} [DecidableEq κ₁] [DecidableEq κ₂]
    (k₁ : α → κ₁) (k₂ : α → κ₂) (l : List α)
    (hk : ∀ r ∈ l, ∀ s ∈ l, k₁ r = k₁ s ↔ k₂ r = k₂ s) :
    groupsBy k₁ l = groupsBy k₂ l := by
  unfold groupsBy
  rw [repsSeen_congr k₁ k₂ l [] [] hk (by simp)]
  refine List.map_congr_left fun x hx => ?_
  have hxl : x ∈ l := repsSeen_subset k₂ l [] x hx
  have : (l.filter fun y => decide (k₁ y = k₁ x)) = l.filter fun y => decide (k₂ y = k₂ x) := by
    refine List.filter_congr fun y hy => ?_
    by_cases hc : k₁ y = k₁ x
    · rw [decide_eq_true hc, decide_eq_true ((hk y hy x hxl).mp hc)]
    · rw [decide_eq_false hc, decide_eq_false fun hc2 => hc ((hk y hy x hxl).mpr hc2)]
  rw [this]

/-! ## Lemmas about the stable sorts -/

theorem mem_insertDesc {α : Type} (key : α → Nat) (x a : α) :
    ∀ l : List α, a ∈ insertDesc key x l ↔ a = x ∨ a ∈ l := by
  intro l
  induction l with
  | nil => simp [insertDesc]
  | cons y ys ih =>
    by_cases hc : key x < key y
    · rw [insertDesc, if_pos hc]
      simp only [List.mem_cons, ih]
      tauto
    · rw [insertDesc, if_neg hc]
      simp only [List.mem_cons]

theorem mem_sortDesc {α : Type} (key : α → Nat) (a : α) :
    ∀ l : List α, a ∈ sortDesc key l ↔ a ∈ l := by
  intro l
  induction l with
  | nil => simp [sortDesc]
  | cons x xs ih =>
    rw [sortDesc, mem_insertDesc]
    simp only [List.mem_cons, ih]

theorem insertDesc_sorted {α : Type} (key : α → Nat) (x : α) :
    ∀ l : List α, l.Pairwise (fun a b => key b ≤ key a) →
      (insertDesc key x l).Pairwise fun a b => key b ≤ key a := by
  intro l
  induction l with
  | nil => intro _; simp [insertDesc]
  | cons y ys ih =>
    intro hs
    rcases List.pairwise_cons.mp hs with ⟨hy, hys⟩
    by_cases hc : key x < key y
    · rw [insertDesc, if_pos hc]
      refine List.pairwise_cons.mpr ⟨?_, ih hys⟩
      intro b hb
      rcases (mem_insertDesc key x b ys).mp hb with hb | hb
      · subst hb; exact Nat.le_of_lt hc
      · exact hy b hb
    · rw [insertDesc, if_neg hc]
      refine List.pairwise_cons.mpr ⟨?_, hs⟩
      intro b hb
      rcases List.mem_cons.mp hb with hb | hb
      · subst hb; exact Nat.le_of_not_lt hc
      · exact Nat.le_trans (hy b hb) (Nat.le_of_not_lt hc)

theorem sortDesc_sorted {α : Type} (key : α → Nat) :
    ∀ l : List α, (sortDesc key l).Pairwise fun a b => key b ≤ key a := by
  intro l
  induction l with
  | nil => simp [sortDesc]
  | cons x xs ih => exact insertDesc_sorted key x _ ih

theorem insertDesc_filter {α : Type} (key : α → Nat) (x : α) (c : Nat) :
    ∀ l : List α, l.Pairwise (fun a b => key b ≤ key a) →
      (insertDesc key x l).filter (fun a => key a == c) =
        (x :: l).filter fun a => key a == c := by
  intro l
  induction l with
  | nil => intro _; simp [insertDesc]
  | cons y ys ih =>
    intro hs
    rcases List.pairwise_cons.mp hs with ⟨-, hys⟩
    by_cases hc : key x < key y
    · rw [insertDesc, if_pos hc]
      by_cases hxc : key x = c
      · have hyne : ¬ key y = c := fun h => Nat.lt_irrefl _ (hxc ▸ h ▸ hc)
        simp [List.filter_cons, ih hys, hxc, hyne]
      · simp [List.filter_cons, ih hys, hxc]
    · rw [insertDesc, if_neg hc]

theorem sortDesc_filter {α : Type} (key : α → Nat) (c : Nat) :
    ∀ l : List α, (sortDesc key l).filter (fun a => key a == c) =
      l.filter fun a => key a == c := by
  intro l
  induction l with
  | nil => simp [sortDesc]
  | cons x xs ih =>
    rw [sortDesc, insertDesc_filter key x c _ (sortDesc_sorted key xs)]
    rw [List.filter_cons, List.filter_cons, ih]

theorem mem_insertAsc {α : Type} (key : α → Nat) (x a : α) :
    ∀ l : List α, a ∈ insertAsc key x l ↔ a = x ∨ a ∈ l := by
  intro l
  induction l with
  | nil => simp [insertAsc]
  | cons y ys ih =>
    by_cases hc : key y < key x
    · rw [insertAsc, if_pos hc]
      simp only [List.mem_cons, ih]
      tauto
    · rw [insertAsc, if_neg hc]
      simp only [List.mem_cons]

theorem mem_sortAsc {α : Type} (key : α → Nat) (a : α) :
    ∀ l : List α, a ∈ sortAsc key l ↔ a ∈ l := by
  intro l
  induction l with
  | nil => simp [sortAsc]
  | cons x xs ih =>
    rw [sortAsc, mem_insertAsc]
    simp only [List.mem_cons, ih]

theorem insertAsc_sorted {α : Type} (key : α → Nat) (x : α) :
    ∀ l : List α, l.Pairwise (fun a b => key a ≤ key b) →
      (insertAsc key x l).Pairwise fun a b => key a ≤ key b := by
  intro l
  induction l with
  | nil => intro _; simp [insertAsc]
  | cons y ys ih =>
    intro hs
    rcases List.pairwise_cons.mp hs with ⟨hy, hys⟩
    by_cases hc : key y < key x
    · rw [insertAsc, if_pos hc]
      refine List.pairwise_cons.mpr ⟨?_, ih hys⟩
      intro b hb
      rcases (mem_insertAsc key x b ys).mp hb with hb | hb
      · subst hb; exact Nat.le_of_lt hc
      · exact hy b hb
    · rw [insertAsc, if_neg hc]
      refine List.pairwise_cons.mpr ⟨?_, hs⟩
      intro b hb
      rcases List.mem_cons.mp hb with hb | hb
      · subst hb; exact Nat.le_of_not_lt hc
      · exact Nat.le_trans (Nat.le_of_not_lt hc) (hy b hb)

theorem sortAsc_sorted {α : Type} (key : α → Nat) :
    ∀ l : List α, (sortAsc key l).Pairwise fun a b => key a ≤ key b := by
  intro l
  induction l with
  | nil => simp [sortAsc]
  | cons x xs ih => exact insertAsc_sorted key x _ ih

theorem insertAsc_length {α : Type} (key : α → Nat) (x : α) :
    ∀ l : List α, (insertAsc key x l).length = l.length + 1 := by
  intro l
  induction l with
  | nil => simp [insertAsc]
  | cons y ys ih =>
    by_cases hc : key y < key x
    · rw [insertAsc, if_pos hc]
      simp [ih]
    · rw [insertAsc, if_neg hc]
      simp

theorem sortAsc_length {α : Type} (key : α → Nat) :
    ∀ l : List α, (sortAsc key l).length = l.length := by
  intro l
  induction l with
  | nil => simp [sortAsc]
  | cons x xs ih =>
    rw [sortAsc, insertAsc_length, ih]
    simp

/-! ## Arithmetic helper lemmas -/

theorem sum_map_const {α : Type} (f : α → Nat) (c : Nat) :
    ∀ l : List α, (∀ a ∈ l, f a = c) → (l.map f).sum = l.length * c := by
  intro l
  induction l with
  | nil => intro _; simp
  | cons x xs ih =>
    intro h
    have hx := h x (List.mem_cons_self _ _)
    rw [List.map_cons, List.sum_cons, ih fun a ha => h a (List.mem_cons_of_mem _ ha), hx]
    simp [List.length_cons, Nat.succ_mul, Nat.add_comm]

theorem getD_mono_of_sorted (l : List Nat) (h : l.Pairwise fun a b => a ≤ b)
    (i j : Nat) (hij : i ≤ j) (hj : j < l.length) : l.getD i 0 ≤ l.getD j 0 := by
  have hi : i < l.length := Nat.lt_of_le_of_lt hij hj
  rw [List.getD_eq_getElem l 0 hi, List.getD_eq_getElem l 0 hj]
  rcases Nat.eq_or_lt_of_le hij with hij | hij
  · subst hij; exact Nat.le_refl _
  · exact List.pairwise_iff_getElem.mp h i j hi hj hij

/-! ## Shape lemmas for the views -/

theorem mem_aRows (plays : List PlayRow) (r : PlayRow × Artist) (h : r ∈ aRows plays) :
    r.1 ∈ plays ∧ r.2 ∈ r.1.artists := by
  unfold aRows at h
  rw [List.mem_flatMap] at h
  obtain ⟨p, hp, hr⟩ := h
  obtain ⟨a, ha, hra⟩ := List.mem_map.mp hr
  subst hra
  exact ⟨hp, ha⟩

theorem artist_stat_shape (plays : List PlayRow) (g : (String × Nat) × List ArtistStat)
    (hg : g ∈ user_artist_stats plays) (s : ArtistStat) (hs : s ∈ g.2) :
    ∃ rows : List (PlayRow × Artist), (∀ r ∈ rows, r.1 ∈ plays) ∧
      s.play_count = rows.length ∧
      s.total_duration_ms = (rows.map fun r => coalesceDur r.1.duration_ms).sum := by
  obtain ⟨g₀, hg₀, hgeq⟩ := List.mem_map.mp hg
  subst hgeq
  rw [mem_sortDesc] at hs
  obtain ⟨og, hog, hg₀eq⟩ := List.mem_map.mp hg₀
  subst hg₀eq
  obtain ⟨e, he, hse⟩ := List.mem_map.mp hs
  subst hse
  refine ⟨e.2, ?_, rfl, rfl⟩
  intro r hr
  have he₂ := mem_of_mem_group _ _ og hog e he
  have hr₂ := mem_of_mem_group aKeyM (aRows plays) e he₂.1 r hr
  exact (mem_aRows plays r hr₂.1).1

theorem daily_stat_shape (plays : List PlayRow) (g : (String × Nat) × List DayStat)
    (hg : g ∈ user_daily_activity plays) (d : DayStat) (hd : d ∈ g.2) :
    ∃ rows : List PlayRow, (∀ r ∈ rows, r ∈ plays) ∧
      d.plays = rows.length ∧
      d.duration_ms = (rows.map fun r => coalesceDur r.duration_ms).sum := by
  obtain ⟨og, hog, hgeq⟩ := List.mem_map.mp hg
  subst hgeq
  rw [mem_sortAsc] at hd
  obtain ⟨e, he, hde⟩ := List.mem_map.mp hd
  subst hde
  refine ⟨e.2, ?_, rfl, rfl⟩
  intro r hr
  have he₂ := mem_of_mem_group _ _ og hog e he
  have hr₂ := mem_of_mem_group dKey plays e he₂.1 r hr
  exact hr₂.1

/-! ## Claim theorems -/

/-- C9: in every duration total computed by the aggregation (per-artist
total minutes in `user_artist_stats` and per-day minutes in
`user_daily_activity`), a play whose `duration_ms` is absent contributes
exactly `210000` ms, so when every play lacks `duration_ms` each duration
total equals the corresponding play count times `210000`. -/
theorem missing_duration_fallback (plays : List PlayRow)
    (h : ∀ p ∈ plays, p.duration_ms = none) :
    (∀ g ∈ user_artist_stats plays, ∀ s ∈ g.2,
      s.total_duration_ms = s.play_count * 210000) ∧
    (∀ g ∈ user_daily_activity plays, ∀ d ∈ g.2,
      d.duration_ms = d.plays * 210000) := by
  constructor
  · intro g hg s hs
    obtain ⟨rows, hrows, hc, hd⟩ := artist_stat_shape plays g hg s hs
    rw [hd, hc]
    exact sum_map_const _ _ rows fun r hr => by rw [h r.1 (hrows r hr)]; rfl
  · intro g hg d hd
    obtain ⟨rows, hrows, hc, hdur⟩ := daily_stat_shape plays g hg d hd
    rw [hdur, hc]
    exact sum_map_const _ _ rows fun r hr => by rw [h r (hrows r hr)]; rfl

/-- Example play without a duration, for the C9 witness. -/
def exNoDur : PlayRow :=
  ⟨"u", "at://u/play/1", "Track T", [⟨"Artist A", none⟩], none, none, none, none, 20089 * 86400⟩

/-- Witness for C9 at a one-play store whose play lacks `duration_ms`. -/
theorem missing_duration_fallback_witness :
    (∀ p ∈ [exNoDur], p.duration_ms = none) ∧
    ((∀ g ∈ user_artist_stats [exNoDur], ∀ s ∈ g.2,
        s.total_duration_ms = s.play_count * 210000) ∧
     (∀ g ∈ user_daily_activity [exNoDur], ∀ d ∈ g.2,
        d.duration_ms = d.plays * 210000)) :=
  ⟨by decide, missing_duration_fallback [exNoDur] (by decide)⟩

theorem nearestRankIdx_mono (n : Nat) {p₁ p₂ : Nat} (h : p₁ < p₂) :
    nearestRankIdx n p₁ ≤ nearestRankIdx n p₂ := by
  unfold nearestRankIdx
  refine min_le_min ?_ (Nat.le_refl _)
  by_cases h₁ : p₁ = 0
  · rw [if_pos h₁]
    exact Nat.zero_le _
  · rw [if_neg h₁, if_neg (by omega)]
    have hm : p₁ * n ≤ p₂ * n := Nat.mul_le_mul_right n (Nat.le_of_lt h)
    exact Nat.sub_le_sub_right (Nat.div_le_div_right (by omega)) 1

theorem nearestRankIdx_lt (n p : Nat) (hn : 0 < n) : nearestRankIdx n p < n := by
  unfold nearestRankIdx
  exact Nat.lt_of_le_of_lt (Nat.min_le_right _ _) (by omega)

/-- C8: the nearest-rank percentile function over a distribution's values
is monotone: `p₁ < p₂` implies `percentile values p₁ ≤ percentile values
p₂`; the values are the sorted-ascending per-user statistics, without
interpolation. -/
theorem percentile_monotone (values : List Nat) (p₁ p₂ : Nat) (h : p₁ < p₂) :
    percentile values p₁ ≤ percentile values p₂ := by
  rcases Nat.eq_zero_or_pos values.length with hn | hn
  · have hv : values = [] := List.length_eq_zero.mp hn
    subst hv
    simp [percentile, sortAsc]
  · unfold percentile
    refine getD_mono_of_sorted _ (sortAsc_sorted id values) _ _
      (nearestRankIdx_mono values.length h) ?_
    rw [sortAsc_length]
    exact nearestRankIdx_lt _ _ hn

/-- Witness for C8 on the per-user values `[5, 1, 3]` at ranks 0 and 50. -/
theorem percentile_monotone_witness :
    (0 : Nat) < 50 ∧ percentile [5, 1, 3] 0 ≤ percentile [5, 1, 3] 50 :=
  ⟨by decide, percentile_monotone [5, 1, 3] 0 50 (by decide)⟩

/-- C3: recording a play whose `uri` already exists returns `Duplicate`
and leaves the Play Store — hence every view computed from it —
unchanged, and `record` preserves uniqueness of `uri` across the store. -/
theorem record_duplicate_noop (store : List PlayRow) (p : PlayRow) :
    ((∃ r ∈ store, r.uri = p.uri) →
      record store p = (RecordResult.Duplicate, store) ∧
      user_artist_stats (record store p).2 = user_artist_stats store ∧
      user_track_stats (record store p).2 = user_track_stats store ∧
      user_daily_activity (record store p).2 = user_daily_activity store) ∧
    (uniqueUris store → uniqueUris (record store p).2) := by
  constructor
  · intro hex
    have hdup : record store p = (RecordResult.Duplicate, store) := by
      unfold record
      rw [if_pos (by simpa [List.any_eq_true] using hex)]
    exact ⟨hdup, by rw [hdup], by rw [hdup], by rw [hdup]⟩
  · intro hu
    unfold record
    by_cases hc : (store.any fun r => r.uri == p.uri) = true
    · rw [if_pos hc]
      exact hu
    · rw [if_neg hc]
      show uniqueUris (store ++ [p])
      unfold uniqueUris at hu ⊢
      rw [List.pairwise_append]
      refine ⟨hu, List.pairwise_singleton _ _, ?_⟩
      intro r hr q hq
      rw [List.mem_singleton] at hq
      rw [hq]
      have hall : ∀ r ∈ store, ¬ r.uri = p.uri := by
        simpa [List.any_eq_true] using hc
      exact hall r hr

/-- Example play already stored, for the C3 witness. -/
def exStored : PlayRow :=
  ⟨"u", "at://u/play/dup", "Track T", [⟨"Artist A", none⟩], none, none, none,
    some 120000, 20089 * 86400⟩

/-- Witness for C3: re-recording `exStored` on the store `[exStored]`
returns `Duplicate`, leaves the store unchanged, and keeps `uri`
uniqueness. -/
theorem record_duplicate_noop_witness :
    record [exStored] exStored = (RecordResult.Duplicate, [exStored]) ∧
    uniqueUris (record [exStored] exStored).2 :=
  ⟨((record_duplicate_noop [exStored] exStored).1
      ⟨exStored, List.mem_singleton_self _, rfl⟩).1,
   (record_duplicate_noop [exStored] exStored).2 (by simp [uniqueUris])⟩

theorem markFailed_user_did (did : String) (now : Nat) (r : RetryRow) :
    ((if r.user_did == did
        then { r with retry_count := r.retry_count + 1, last_attempt := now }
        else r) : RetryRow).user_did = r.user_did := by
  by_cases hr : r.user_did == did <;> simp [hr]

/-- C5 (amended): the retry queue is keyed by `user_did` alone: the
operations keep at most one row per `user_did`, a success deletes the
user's row, a first failure inserts a row with the DDL defaults, and a
repeat failure updates the existing row without adding one. -/
theorem retry_queue_per_user (q : List RetryRow) (did : String) (now : Nat)
    (h : uniqueDids q) :
    uniqueDids (markFailed q did now) ∧
    uniqueDids (markSuccess q did) ∧
    (∀ r ∈ markSuccess q did, r.user_did ≠ did) ∧
    ((∀ r ∈ q, r.user_did ≠ did) → markFailed q did now = q ++ [⟨did, 0, now, now⟩]) ∧
    ((∃ r ∈ q, r.user_did = did) →
      (markFailed q did now).map (fun r => r.user_did) = q.map fun r => r.user_did) := by
  refine ⟨?_, ?_, ?_, ?_, ?_⟩
  · unfold markFailed
    by_cases hc : (q.any fun r => r.user_did == did) = true
    · rw [if_pos hc]
      unfold uniqueDids at h ⊢
      rw [List.pairwise_map]
      refine h.imp ?_
      intro a b hab
      rw [markFailed_user_did did now a, markFailed_user_did did now b]
      exact hab
    · rw [if_neg hc]
      unfold uniqueDids at h ⊢
      rw [List.pairwise_append]
      refine ⟨h, List.pairwise_singleton _ _, ?_⟩
      intro r hr s hs
      rw [List.mem_singleton] at hs
      subst hs
      have hall : ∀ r ∈ q, ¬ r.user_did = did := by
        simpa [List.any_eq_true] using hc
      exact hall r hr
  · exact h.filter _
  · intro r hr
    have := List.mem_filter.mp hr
    simpa using this.2
  · intro hnone
    unfold markFailed
    rw [if_neg (by simp [List.any_eq_true]; exact hnone)]
  · intro hex
    unfold markFailed
    rw [if_pos (by simpa [List.any_eq_true] using hex)]
    rw [List.map_map]
    exact List.map_congr_left fun r _ => markFailed_user_did did now r

/-- Witness for C5 on the empty queue. -/
theorem retry_queue_per_user_witness :
    uniqueDids (markFailed [] "u" 5) ∧ markFailed [] "u" 5 = [⟨"u", 0, 5, 5⟩] :=
  ⟨(retry_queue_per_user [] "u" 5 List.Pairwise.nil).1,
   (retry_queue_per_user [] "u" 5 List.Pairwise.nil).2.2.2.1 (by simp)⟩

/-- Modelled from the spec: the scheduler records a refresh failure for a
personal aggregate key `(user_did, year)`; the `refresh_retry_queue` row
can only store the key's `user_did` — the table has no year column and no
outcome column. -/
def markFailedForKey (q : List RetryRow) (u : String) (_year : Nat) (now : Nat) :
    List RetryRow :=
  markFailed q u now

/-- Counterexample to C5 as stated: after a first failure of the dirty
key `("u", 2024)` and a first failure of the distinct dirty key
`("u", 2025)`, the claim requires two `RetryState` entries, each created
with its own attempt count; the code's queue holds a single row, whose
`retry_count` was incremented to 1 by the second key's first failure. -/
theorem retry_queue_key_counterexample :
    (markFailedForKey (markFailedForKey [] "u" 2024 1) "u" 2025 2).length = 1 ∧
    (markFailedForKey (markFailedForKey [] "u" 2024 1) "u" 2025 2).map
      (fun r => r.retry_count) = [1] := by
  exact ⟨by decide, by decide⟩

theorem toRow_none_of_bad (e : IngestEvent)
    (hbad : e.track_name = "" ∨ e.played_at = none) : toRow e = none := by
  unfold toRow
  split
  · rfl
  · rename_i t hp
    rcases hbad with hb | hb
    · rw [if_pos (Or.inl (by rw [hb]; rfl))]
    · rw [hp] at hb
      cases hb

theorem toRow_some_shape (e : IngestEvent) (r : PlayRow) (h : toRow e = some r) :
    r.track_name = e.track_name ∧ e.track_name ≠ "" := by
  unfold toRow at h
  split at h
  · cases h
  · split at h
    · cases h
    · injection h with h
      subst h
      refine ⟨rfl, fun hemp => ?_⟩
      have h₀ : e.track_name.length = 0 ∨ 256 < e.track_name.length :=
        Or.inl (by rw [hemp]; rfl)
      exact absurd h₀ (by assumption)

/-- C6: an ingestion event with an empty track name or an absent
`played_at` is rejected at the boundary and stores no row, and ingestion
preserves the invariant that every stored row has a non-empty track name
(`played_at` is always present on stored rows by the `NOT NULL` column
type). -/
theorem ingest_rejects_malformed (store : List PlayRow) (e : IngestEvent)
    (hgood : ∀ r ∈ store, r.track_name ≠ "") :
    ((e.track_name = "" ∨ e.played_at = none) →
      ingest store e = Except.error "malformed event") ∧
    (∀ res, ingest store e = Except.ok res → ∀ r ∈ res.2, r.track_name ≠ "") := by
  constructor
  · intro hbad
    unfold ingest
    rw [toRow_none_of_bad e hbad]
  · intro res hres r hr
    unfold ingest at hres
    cases ht : toRow e with
    | none => rw [ht] at hres; cases hres
    | some row =>
      rw [ht] at hres
      injection hres with hres
      subst hres
      have hshape := toRow_some_shape e row ht
      unfold record at hr
      by_cases hc : (store.any fun s => s.uri == row.uri) = true
      · rw [if_pos hc] at hr
        exact hgood r hr
      · rw [if_neg hc] at hr
        rcases List.mem_append.mp hr with hr | hr
        · exact hgood r hr
        · rw [List.mem_singleton] at hr
          subst hr
          rw [hshape.1]
          exact hshape.2

/-- Example malformed ingestion event (empty track name), for the C6
witness. -/
def exBadEvent : IngestEvent :=
  ⟨"u", "at://u/play/bad", "", [⟨"Artist A", none⟩], none, none, none,
    some 120000, some (20089 * 86400)⟩

/-- Witness for C6: the malformed event is rejected on the empty store. -/
theorem ingest_rejects_malformed_witness :
    ingest [] exBadEvent = Except.error "malformed event" :=
  (ingest_rejects_malformed [] exBadEvent (by simp)).1 (Or.inl rfl)

theorem find?_append_none {α : Type} (p : α → Bool) (l₁ l₂ : List α)
    (h : l₁.find? p = none) : (l₁ ++ l₂).find? p = l₂.find? p := by
  induction l₁ with
  | nil => simp
  | cons a t ih =>
    rw [List.cons_append]
    by_cases hpa : p a = true
    · rw [List.find?_cons_of_pos _ hpa] at h
      cases h
    · rw [List.find?_cons_of_neg _ (by simp [hpa])] at h
      rw [List.find?_cons_of_neg _ (by simp [hpa])]
      exact ih h

/-- C7: the Result Cache keeps at most one entry per `AggregateKey`
(`wrapped_cache` is keyed `(user_did, year)`, `global_stats_cache` by
`(year)`); `put` is an idempotent overwrite; `get` returns the stored
aggregate after a `put`, returns nothing after an `invalidate`, and
returns nothing exactly when no entry for the key is present. -/
theorem cache_key_contract {δ : Type} (c : List (CacheEntry δ)) (k : AggregateKey)
    (v : δ) (t : Nat) (h : uniqueKeys c) :
    uniqueKeys (cachePut c k v t) ∧
    uniqueKeys (cacheInvalidate c k) ∧
    cachePut (cachePut c k v t) k v t = cachePut c k v t ∧
    cacheGet (cachePut c k v t) k = some v ∧
    cacheGet (cacheInvalidate c k) k = none ∧
    (cacheGet c k = none ↔ ∀ e ∈ c, e.key ≠ k) := by
  have hfilter_none : ((c.filter fun e => decide (e.key ≠ k)).find? fun e => e.key == k)
      = none := by
    rw [List.find?_eq_none]
    intro e he
    have := List.mem_filter.mp he
    simpa using of_decide_eq_true this.2
  refine ⟨?_, ?_, ?_, ?_, ?_, ?_⟩
  · unfold cachePut uniqueKeys
    rw [List.pairwise_append]
    refine ⟨h.filter _, List.pairwise_singleton _ _, ?_⟩
    intro e he f hf
    rw [List.mem_singleton] at hf
    subst hf
    have := List.mem_filter.mp he
    simpa using of_decide_eq_true this.2
  · exact h.filter _
  · unfold cachePut
    rw [List.filter_append, List.filter_filter]
    have h₁ : (List.filter (fun e => decide (e.key ≠ k))
        ([⟨k, v, t⟩] : List (CacheEntry δ))) = [] := by simp
    rw [h₁, List.append_nil]
    congr 1
    exact List.filter_congr fun a _ => Bool.and_self _
  · unfold cacheGet cachePut
    rw [find?_append_none _ _ _ hfilter_none]
    rw [List.find?_cons_of_pos _ (by simp)]
    rfl
  · unfold cacheGet cacheInvalidate
    rw [hfilter_none]
    rfl
  · unfold cacheGet
    constructor
    · intro hnone e he
      cases hf : c.find? fun e => e.key == k with
      | none =>
        have := List.find?_eq_none.mp hf e he
        simpa using this
      | some f => rw [hf] at hnone; cases hnone
    · intro hall
      rw [List.find?_eq_none.mpr fun e he => by simpa using hall e he]
      rfl

/-- Witness for C7 at the personal key `("u", 2025)` with aggregate `7`. -/
theorem cache_key_contract_witness :
    cachePut (cachePut ([] : List (CacheEntry Nat)) (AggregateKey.personal "u" 2025) 7 1)
        (AggregateKey.personal "u" 2025) 7 1 =
      cachePut [] (AggregateKey.personal "u" 2025) 7 1 ∧
    cacheGet (cachePut ([] : List (CacheEntry Nat)) (AggregateKey.personal "u" 2025) 7 1)
        (AggregateKey.personal "u" 2025) = some 7 :=
  ⟨(cache_key_contract [] (AggregateKey.personal "u" 2025) 7 1 List.Pairwise.nil).2.2.1,
   (cache_key_contract [] (AggregateKey.personal "u" 2025) 7 1 List.Pairwise.nil).2.2.2.1⟩

/-! ## C1: ranking order and stability -/

/-- C1 (amended): in both ranked arrays, entries are ordered by
`play_count` descending, and entries with equal `play_count` keep the
first-seen order of the artist/track group (no total-minutes tiebreak is
applied); the aggregation is a pure function, so two runs over the same
input produce identical orderings. -/
theorem ranking_sorted_stable (plays : List PlayRow) :
    (∀ g ∈ user_artist_stats plays,
      g.2.Pairwise fun a b => b.play_count ≤ a.play_count) ∧
    (∀ g ∈ user_track_stats plays,
      g.2.Pairwise fun a b => b.play_count ≤ a.play_count) ∧
    (∀ g ∈ artistGroupsRaw plays, ∀ c : Nat,
      (sortDesc (fun s => s.play_count) g.2).filter (fun s => s.play_count == c) =
        g.2.filter fun s => s.play_count == c) ∧
    (∀ g ∈ trackGroupsRaw plays, ∀ c : Nat,
      (sortDesc (fun s => s.play_count) g.2).filter (fun s => s.play_count == c) =
        g.2.filter fun s => s.play_count == c) := by
  refine ⟨?_, ?_, ?_, ?_⟩
  · intro g hg
    obtain ⟨g₀, hg₀, hgeq⟩ := List.mem_map.mp hg
    subst hgeq
    exact sortDesc_sorted _ _
  · intro g hg
    obtain ⟨g₀, hg₀, hgeq⟩ := List.mem_map.mp hg
    subst hgeq
    exact sortDesc_sorted _ _
  · intro g _ c
    exact sortDesc_filter _ c g.2
  · intro g _ c
    exact sortDesc_filter _ c g.2

/-- Example play of "Artist A" with a tiny duration, tied on play count
with `exTieB`. -/
def exTieA : PlayRow :=
  ⟨"u", "at://u/play/t1", "Track X", [⟨"Artist A", none⟩], none, none, none,
    some 1000, 20089 * 86400⟩

/-- Example play of "Artist B" with a large duration, tied on play count
with `exTieA`. -/
def exTieB : PlayRow :=
  ⟨"u", "at://u/play/t2", "Track Y", [⟨"Artist B", some "mb-b"⟩], none, none, none,
    some 600000, 20089 * 86400⟩

/-- Witness for C1 on the tied two-artist store. -/
theorem ranking_sorted_stable_witness :
    ((("u", 2025), [(⟨"Artist A", none, 1, 1000⟩ : ArtistStat),
        ⟨"Artist B", some "mb-b", 1, 600000⟩]) : (String × Nat) × List ArtistStat).2.Pairwise
      (fun a b => b.play_count ≤ a.play_count) :=
  (ranking_sorted_stable [exTieA, exTieB]).1
    ((("u", 2025), [⟨"Artist A", none, 1, 1000⟩, ⟨"Artist B", some "mb-b", 1, 600000⟩]))
    (by decide)

/-- Counterexample to C1 as stated: "Artist A" and "Artist B" are tied at
one play each, yet the array lists "Artist A" (1000 ms) before "Artist B"
(600000 ms) — first-seen order, not total-minutes-descending order as the
claim requires. -/
theorem ranking_tiebreak_counterexample :
    user_artist_stats [exTieA, exTieB] =
      [(("u", 2025), [⟨"Artist A", none, 1, 1000⟩, ⟨"Artist B", some "mb-b", 1, 600000⟩])] ∧
    (1000 : Nat) < 600000 :=
  ⟨by decide, by decide⟩

/-! ## C4: attribution of a play to its UTC year -/

theorem filter_map_singleton {α κ : Type} (P : α → Bool) (key : α → κ) (K : κ) :
    ∀ l : List α, l.Pairwise (fun a b => key a ≠ key b) →
      (∀ a ∈ l, P a = true → key a = K) → (∃ a ∈ l, P a = true) →
      (l.filter P).map key = [K] := by
  intro l
  induction l with
  | nil =>
    intro _ _ hex
    obtain ⟨a, ha, -⟩ := hex
    cases ha
  | cons a t ih =>
    intro hdist hkey hex
    rcases List.pairwise_cons.mp hdist with ⟨hha, htt⟩
    by_cases hPa : P a = true
    · have hKa := hkey a (List.mem_cons_self _ _) hPa
      have htnone : t.filter P = [] := by
        rw [List.filter_eq_nil_iff]
        intro b hb hPb
        exact hha b hb (by rw [hKa, hkey b (List.mem_cons_of_mem _ hb) hPb])
      rw [List.filter_cons_of_pos hPa, htnone]
      simp [hKa]
    · rw [List.filter_cons_of_neg hPa]
      refine ih htt (fun b hb hPb => hkey b (List.mem_cons_of_mem _ hb) hPb) ?_
      obtain ⟨b, hb, hPb⟩ := hex
      rcases List.mem_cons.mp hb with hb | hb
      · subst hb
        exact absurd hPb hPa
      · exact ⟨b, hb, hPb⟩

theorem filter_map_nil {α κ : Type} (P : α → Bool) (key : α → κ) (l : List α)
    (hnone : ∀ a ∈ l, ¬ P a = true) : (l.filter P).map key = [] := by
  rw [List.filter_eq_nil_iff.mpr hnone]
  rfl

/-- The `(user_did, year)` keys of `user_daily_activity` whose underlying
rows contain the play `p`. -/
def dailyContrib (plays : List PlayRow) (p : PlayRow) : List (String × Nat) :=
  ((groupsBy (fun e => (e.1.user_did, yearOfDay (dayOf e.1))) (groupsBy dKey plays)).filter
    fun og => og.2.any fun e => e.2.any fun q => decide (q = p)).map
    fun og => (og.1.1.user_did, yearOfDay (dayOf og.1.1))

/-- The `(user_did, year)` keys of `user_artist_stats` whose underlying
rows contain a row derived from the play `p`. -/
def artistContrib (plays : List PlayRow) (p : PlayRow) : List (String × Nat) :=
  ((groupsBy (fun e => (e.1.1.user_did, yearOf e.1.1)) (groupsBy aKeyM (aRows plays))).filter
    fun og => og.2.any fun e => e.2.any fun q => decide (q.1 = p)).map
    fun og => (og.1.1.1.user_did, yearOf og.1.1.1)

/-- The `(user_did, year)` keys of `user_track_stats` whose underlying
rows contain the play `p`. -/
def trackContrib (plays : List PlayRow) (p : PlayRow) : List (String × Nat) :=
  ((groupsBy (fun e => (e.1.user_did, yearOf e.1)) (groupsBy tKey (tracksSource plays))).filter
    fun og => og.2.any fun e => e.2.any fun q => decide (q = p)).map
    fun og => (og.1.1.user_did, yearOf og.1.1)

/-- C4 (amended): a stored play is attributed only to the key
`(user_did, UTC year of played_at)`: it contributes to exactly that one
key of the daily activity map; in the artist and track statistics it
contributes to exactly that one key when its artist list is non-empty and
to no key at all when its artist list is empty. -/
theorem play_year_attribution (plays : List PlayRow) (p : PlayRow) (hp : p ∈ plays) :
    dailyContrib plays p = [(p.user_did, yearOf p)] ∧
    (p.artists ≠ [] →
      artistContrib plays p = [(p.user_did, yearOf p)] ∧
      trackContrib plays p = [(p.user_did, yearOf p)]) ∧
    (p.artists = [] →
      artistContrib plays p = [] ∧ trackContrib plays p = []) := by
  refine ⟨?_, fun hne => ⟨?_, ?_⟩, fun hemp => ⟨?_, ?_⟩⟩
  · unfold dailyContrib
    refine filter_map_singleton _ _ _ _
      (groupsBy_keys_pairwise (fun e => (e.1.user_did, yearOfDay (dayOf e.1)))
        (groupsBy dKey plays)) ?_ ?_
    · intro og hog hP
      obtain ⟨e, he, hPe⟩ := List.any_eq_true.mp hP
      obtain ⟨q, hq, hqp⟩ := List.any_eq_true.mp hPe
      have hqp := of_decide_eq_true hqp
      subst hqp
      have he₂ := mem_of_mem_group _ _ og hog e he
      have hq₂ := mem_of_mem_group dKey plays e he₂.1 q hq
      have hkey : dKey q = dKey e.1 := hq₂.2
      unfold dKey at hkey
      rw [Prod.mk.injEq] at hkey
      have hout := he₂.2
      rw [← hout, ← hkey.1, ← hkey.2]
      rfl
    · obtain ⟨e, he, hpe⟩ := groupsBy_covers dKey plays p hp
      obtain ⟨og, hog, heog⟩ := groupsBy_covers
        (fun e => (e.1.user_did, yearOfDay (dayOf e.1))) (groupsBy dKey plays) e he
      exact ⟨og, hog, List.any_eq_true.mpr
        ⟨e, heog, List.any_eq_true.mpr ⟨p, hpe, decide_eq_true rfl⟩⟩⟩
  · unfold artistContrib
    refine filter_map_singleton _ _ _ _
      (groupsBy_keys_pairwise (fun e => (e.1.1.user_did, yearOf e.1.1))
        (groupsBy aKeyM (aRows plays))) ?_ ?_
    · intro og hog hP
      obtain ⟨e, he, hPe⟩ := List.any_eq_true.mp hP
      obtain ⟨q, hq, hqp⟩ := List.any_eq_true.mp hPe
      have hqp := of_decide_eq_true hqp
      have he₂ := mem_of_mem_group _ _ og hog e he
      have hq₂ := mem_of_mem_group aKeyM (aRows plays) e he₂.1 q hq
      have hkey := hq₂.2
      unfold aKeyM at hkey
      rw [AKey.mk.injEq] at hkey
      have hout := he₂.2
      rw [← hout, ← hkey.1, ← hkey.2.1, hqp]
    · obtain ⟨a, as, hcons⟩ := List.exists_cons_of_ne_nil hne
      have hpa : ((p, a) : PlayRow × Artist) ∈ aRows plays := by
        unfold aRows
        rw [List.mem_flatMap]
        exact ⟨p, hp, List.mem_map.mpr ⟨a, by rw [hcons]; exact List.mem_cons_self _ _, rfl⟩⟩
      obtain ⟨e, he, hpe⟩ := groupsBy_covers aKeyM (aRows plays) (p, a) hpa
      obtain ⟨og, hog, heog⟩ := groupsBy_covers
        (fun e => (e.1.1.user_did, yearOf e.1.1)) (groupsBy aKeyM (aRows plays)) e he
      exact ⟨og, hog, List.any_eq_true.mpr
        ⟨e, heog, List.any_eq_true.mpr ⟨(p, a), hpe, decide_eq_true rfl⟩⟩⟩
  · unfold trackContrib
    refine filter_map_singleton _ _ _ _
      (groupsBy_keys_pairwise (fun e => (e.1.user_did, yearOf e.1))
        (groupsBy tKey (tracksSource plays))) ?_ ?_
    · intro og hog hP
      obtain ⟨e, he, hPe⟩ := List.any_eq_true.mp hP
      obtain ⟨q, hq, hqp⟩ := List.any_eq_true.mp hPe
      have hqp := of_decide_eq_true hqp
      subst hqp
      have he₂ := mem_of_mem_group _ _ og hog e he
      have hq₂ := mem_of_mem_group tKey (tracksSource plays) e he₂.1 q hq
      have hkey := hq₂.2
      unfold tKey at hkey
      rw [TKey.mk.injEq] at hkey
      have hout := he₂.2
      rw [← hout, ← hkey.1, ← hkey.2.1]
    · have hps : p ∈ tracksSource plays := by
        unfold tracksSource
        exact List.mem_filter.mpr ⟨hp, decide_eq_true (List.length_pos.mpr hne)⟩
      obtain ⟨e, he, hpe⟩ := groupsBy_covers tKey (tracksSource plays) p hps
      obtain ⟨og, hog, heog⟩ := groupsBy_covers
        (fun e => (e.1.user_did, yearOf e.1)) (groupsBy tKey (tracksSource plays)) e he
      exact ⟨og, hog, List.any_eq_true.mpr
        ⟨e, heog, List.any_eq_true.mpr ⟨p, hpe, decide_eq_true rfl⟩⟩⟩
  · unfold artistContrib
    refine filter_map_nil _ _ _ ?_
    intro og hog hP
    obtain ⟨e, he, hPe⟩ := List.any_eq_true.mp hP
    obtain ⟨q, hq, hqp⟩ := List.any_eq_true.mp hPe
    have hqp := of_decide_eq_true hqp
    have he₂ := mem_of_mem_group _ _ og hog e he
    have hq₂ := mem_of_mem_group aKeyM (aRows plays) e he₂.1 q hq
    have hqa := (mem_aRows plays q hq₂.1).2
    rw [hqp, hemp] at hqa
    cases hqa
  · unfold trackContrib
    refine filter_map_nil _ _ _ ?_
    intro og hog hP
    obtain ⟨e, he, hPe⟩ := List.any_eq_true.mp hP
    obtain ⟨q, hq, hqp⟩ := List.any_eq_true.mp hPe
    have hqp := of_decide_eq_true hqp
    subst hqp
    have he₂ := mem_of_mem_group _ _ og hog e he
    have hq₂ := mem_of_mem_group tKey (tracksSource plays) e he₂.1 q hq
    have := List.mem_filter.mp hq₂.1
    have hlen := of_decide_eq_true this.2
    rw [hemp] at hlen
    cases hlen

/-- Witness for C4 at a one-play store. -/
theorem play_year_attribution_witness :
    dailyContrib [exNoDur] exNoDur = [(exNoDur.user_did, yearOf exNoDur)] ∧
    artistContrib [exNoDur] exNoDur = [(exNoDur.user_did, yearOf exNoDur)] ∧
    trackContrib [exNoDur] exNoDur = [(exNoDur.user_did, yearOf exNoDur)] :=
  have h := play_year_attribution [exNoDur] exNoDur (List.mem_singleton_self _)
  ⟨h.1, (h.2.1 (by decide)).1, (h.2.1 (by decide)).2⟩

/-- Example play with an empty `artists` array, for the C4
counterexample. -/
def exNoArtists : PlayRow :=
  ⟨"u", "at://u/play/na", "Track T", [], none, none, none, some 120000, 20089 * 86400⟩

/-- Counterexample to C4 as stated: a stored play with an empty `artists`
array contributes to no key of `user_track_stats` and no key of
`user_artist_stats` (rather than exactly one), and the track view is
empty for its store. -/
theorem empty_artists_counterexample :
    exNoArtists ∈ [exNoArtists] ∧
    trackContrib [exNoArtists] exNoArtists = [] ∧
    artistContrib [exNoArtists] exNoArtists = [] ∧
    user_track_stats [exNoArtists] = [] :=
  ⟨List.mem_singleton_self _, by decide, by decide, by decide⟩

/-! ## C10: the two `user_artist_stats` definitions -/

/-- C10 (amended): the two `user_artist_stats` definitions agree exactly
on stores where, within one `(user_did, year, artist)` group, all plays
share a single `played_at` timestamp; under that hypothesis the initial
per-timestamp grouping and the migration per-year grouping produce the
same arrays. -/
theorem artist_stats_versions_agree (plays : List PlayRow)
    (h : ∀ r ∈ aRows plays, ∀ s ∈ aRows plays,
      aKeyM r = aKeyM s → r.1.played_at = s.1.played_at) :
    user_artist_stats_v1 plays = user_artist_stats plays := by
  have hk : ∀ r ∈ aRows plays, ∀ s ∈ aRows plays,
      (aKeyM r = aKeyM s ↔ aKeyP r = aKeyP s) := by
    intro r hr s hs
    constructor
    · intro hM
      have ht := h r hr s hs hM
      simp only [aKeyM, AKey.mk.injEq] at hM
      simp only [aKeyP, AKey.mk.injEq]
      exact ⟨hM.1, ht, hM.2.2⟩
    · intro hP
      simp only [aKeyP, AKey.mk.injEq] at hP
      simp only [aKeyM, AKey.mk.injEq]
      refine ⟨hP.1, ?_, hP.2.2⟩
      unfold yearOf dayOf
      rw [hP.2.1]
  have hinner : groupsBy aKeyM (aRows plays) = groupsBy aKeyP (aRows plays) :=
    groupsBy_congr aKeyM aKeyP (aRows plays) hk
  unfold user_artist_stats_v1 user_artist_stats artistGroupsRaw
  rw [← hinner, List.map_map]
  rfl

/-- Witness for C10 on a one-play store (the hypothesis holds: there is a
single timestamp). -/
theorem artist_stats_versions_agree_witness :
    user_artist_stats_v1 [exStored] = user_artist_stats [exStored] :=
  artist_stats_versions_agree [exStored] (by decide)

/-- Example plays of the same artist on two different days, for the C10
counterexample. -/
def exC10a : PlayRow :=
  ⟨"u", "at://u/play/c1", "Track T", [⟨"Artist A", none⟩], none, none, none,
    some 120000, 20089 * 86400⟩

/-- Second play of the same artist, one day later. -/
def exC10b : PlayRow :=
  ⟨"u", "at://u/play/c2", "Track T", [⟨"Artist A", none⟩], none, none, none,
    some 120000, 20090 * 86400⟩

/-- Counterexample to C10 as stated: with two plays of the same artist at
different timestamps in the same year, the migration view aggregates them
into one entry with `play_count = 2`, while the initial view keeps one
entry per timestamp with `play_count = 1` each. -/
theorem artist_stats_versions_counterexample :
    user_artist_stats [exC10a, exC10b] =
      [(("u", 2025), [⟨"Artist A", none, 2, 240000⟩])] ∧
    user_artist_stats_v1 [exC10a, exC10b] =
      [(("u", 2025), [⟨"Artist A", none, 1, 120000⟩, ⟨"Artist A", none, 1, 120000⟩])] :=
  ⟨by decide, by decide⟩

/-! ## C2: the end-to-end scenario -/

/-- Scenario play on 2025-01-01 (epoch day 20089), 2 minutes, for C2. -/
def exScn1 : PlayRow :=
  ⟨"u", "at://u/play/s1", "Track T", [⟨"Artist A", none⟩], none, none, none,
    some 120000, 20089 * 86400⟩

/-- Scenario play on 2025-01-02, for C2. -/
def exScn2 : PlayRow := { exScn1 with uri := "at://u/play/s2", played_at := 20090 * 86400 }

/-- Scenario play on 2025-01-04, for C2. -/
def exScn3 : PlayRow := { exScn1 with uri := "at://u/play/s3", played_at := 20092 * 86400 }

/-- The Play Store after ingesting the three scenario plays. -/
def scenarioStore : List PlayRow :=
  (record (record (record [] exScn1).2 exScn2).2 exScn3).2

/-- C2: ingesting 3 plays of one track (2 minutes each) on 2025-01-01,
2025-01-02 and 2025-01-04 yields `days_active = 3`, `longest_streak = 2`,
`listening_diversity = 1/3`, and a ranked 2025 track list whose sole
(hence first) entry has play count 3. -/
theorem end_to_end_scenario :
    days_active scenarioStore "u" 2025 = 3 ∧
    longest_streak scenarioStore "u" 2025 = 2 ∧
    listening_diversity scenarioStore "u" 2025 = 1 / 3 ∧
    (user_track_stats scenarioStore).map (fun g => (g.1, g.2.map fun s => s.play_count)) =
      [(("u", 2025), [3])] := by
  refine ⟨by decide, by decide, ?_, by decide⟩
  have h₁ : (repsSeen (fun p => p.track_name) (playsOf scenarioStore "u" 2025) []).length
      = 1 := by decide
  have h₂ : (playsOf scenarioStore "u" 2025).length = 3 := by decide
  unfold listening_diversity
  rw [h₁, h₂]
  norm_num

end TealWrapped
